import Mathlib

/-!
Shallow embedding of the airdrop claim client (src/airdrop-signature.js and
src/airdrop-claim.js) and proofs of the specification's claims about it.

Byte sequences (JS `Uint8Array`) are modelled as `List Nat` whose elements are
in `[0, 256)`; machine arithmetic appearing in the source (JavaScript 32-bit
bitwise operators) is made explicit with `% 2^32`.  JavaScript numbers that may
be `NaN` are modelled as `Option Int` (with `none` for `NaN`); code that can
throw is modelled with `Except`.  Calls into external libraries (`ethers`,
`@polkadot/*`) are modelled as explicit function parameters collected in the
`Libs` structure: they are collaborator boundaries, not part of this codec.
-/

/-- Byte-extraction core of `encodeU64` (src/airdrop-signature.js:13-28).
The source computes `num & 0xFF`, `(num >> 8) & 0xFF`, `(num >> 16) & 0xFF`,
`(num >> 24) & 0xFF` and writes literal zeros into bytes 4..7.  JavaScript
bitwise operators first pass `num` through ToInt32, which keeps exactly the
low 32 bits of the value in two's complement (and maps `NaN` to 0); for an
integral value `x`, `(ToInt32 x >> 8k) & 0xFF` is byte `k` of `x mod 2^32`.
`jsToUint32` is that low-32-bit view: `none` models `NaN`. -/
def jsToUint32 : Option Int → Nat
  | none => 0
  | some n => (n % 4294967296).toNat

/-- `encodeU64` (src/airdrop-signature.js:13-28) applied to a JS number that is
an exact integer or `NaN`: bytes 0..3 are the little-endian bytes of the
ToInt32 truncation, bytes 4..7 are the literal zeros of lines 22-25. -/
def encodeU64num (x : Option Int) : List Nat :=
  [jsToUint32 x % 256,
   jsToUint32 x / 256 % 256,
   jsToUint32 x / 65536 % 256,
   jsToUint32 x / 16777216 % 256,
   0, 0, 0, 0]

/-- `encodeU64` on a non-negative exact integer argument. -/
def encodeU64 (num : Nat) : List Nat := encodeU64num (some (num : Int))

/-- Reinterpret a byte list as a little-endian integer (the reading direction
used by the claim about `encodeU64`). -/
def fromListLE (l : List Nat) : Nat := l.foldr (fun b acc => b + 256 * acc) 0

/-- Nibble-to-ASCII map of `toAsciiHex` (src/airdrop-signature.js:43,47):
`n < 10 ? 48 + n : 97 + (n - 10)`. -/
def hexNibble (n : Nat) : Nat := if n < 10 then 48 + n else 97 + (n - 10)

/-- `toAsciiHex` (src/airdrop-signature.js:36-51).  The source loops over the
input writing `result[2i] = hexNibble (data[i] >> 4)` and
`result[2i+1] = hexNibble (data[i] & 0x0F)`; for bytes (values `< 2^31`),
`>> 4` is division by 16 and `& 0x0F` is `% 16`. -/
def toAsciiHex : List Nat → List Nat
  | [] => []
  | b :: rest => hexNibble (b / 16) :: hexNibble (b % 16) :: toAsciiHex rest

/-- Decoder for the lowercase ASCII-hex character codes produced by
`toAsciiHex` (the inverse direction named by the specification). -/
def hexCharVal (c : Nat) : Nat := if c ≤ 57 then c - 48 else c - 87

/-- Byte-pair decoder inverting `toAsciiHex` on its outputs. -/
def fromAsciiHex : List Nat → List Nat
  | h :: l :: rest => (16 * hexCharVal h + hexCharVal l) :: fromAsciiHex rest
  | _ => []

/-- UTF-8 encoding of one character (the encoding used by
`@polkadot/util.stringToU8a` and by `TextEncoder().encode`). -/
def utf8EncodeChar (c : Char) : List Nat :=
  let n := c.toNat
  if n < 128 then [n]
  else if n < 2048 then [192 + n / 64, 128 + n % 64]
  else if n < 65536 then [224 + n / 4096, 128 + n / 64 % 64, 128 + n % 64]
  else [240 + n / 262144, 128 + n / 4096 % 64, 128 + n / 64 % 64, 128 + n % 64]

/-- UTF-8 bytes of a string (`stringToU8a` / `TextEncoder().encode`). -/
def utf8Encode (s : String) : List Nat := (s.toList.map utf8EncodeChar).flatten

/-- The hardcoded prefix of `createEthereumSignableMessage`
(src/airdrop-signature.js:61). -/
def prefixBytes : List Nat := utf8Encode "Pay RUSTs to the TEST account:"

/-- The hardcoded header of `createEthereumSignableMessage`
(src/airdrop-signature.js:71). -/
def headerBytes : List Nat := utf8Encode "\x19Ethereum Signed Message:\n"

/-- Fueled accumulator loop producing the decimal digit character codes of `n`
most-significant first (`48 + digit` is the ASCII code of the digit). -/
def decimalReprAux : Nat → Nat → List Nat → List Nat
  | 0, _, acc => acc
  | fuel + 1, n, acc =>
    if n = 0 then acc else decimalReprAux fuel (n / 10) ((48 + n % 10) :: acc)

/-- ASCII character codes of `length.toString()` for a non-negative integer
(src/airdrop-signature.js:67-68): the usual decimal rendering, no sign and no
leading zeros. -/
def decimalRepr (n : Nat) : List Nat :=
  if n = 0 then [48] else decimalReprAux n n []

/-- Value denoted by a most-significant-first list of decimal digit character
codes (used to state that the rendered length text denotes the length). -/
def decodeDec (ds : List Nat) : Nat := ds.foldl (fun a d => 10 * a + (d - 48)) 0

/-- `createEthereumSignableMessage` (src/airdrop-signature.js:59-90):
header ‖ decimal digits of `prefix.length + what.length + extra.length` ‖
prefix ‖ what ‖ extra, with `extra` defaulting to the empty array. -/
def createEthereumSignableMessage (what : List Nat) (extra : List Nat := []) : List Nat :=
  headerBytes
    ++ decimalRepr (prefixBytes.length + what.length + extra.length)
    ++ prefixBytes ++ what ++ extra

/-- Whitespace characters trimmed by ECMAScript `ToNumber` on strings (the
ASCII white space and line terminators plus NBSP, LS, PS and the BOM; written
as code points). -/
def isStrWhiteChar (c : Char) : Bool :=
  c.toNat == 9 || c.toNat == 10 || c.toNat == 11 || c.toNat == 12 ||
  c.toNat == 13 || c.toNat == 32 || c.toNat == 160 || c.toNat == 8232 ||
  c.toNat == 8233 || c.toNat == 65279

/-- Decimal digit character (code points 48..57). -/
def isDecDigit (c : Char) : Bool := decide (48 ≤ c.toNat ∧ c.toNat ≤ 57)

/-- Hexadecimal digit character (`0-9`, `a-f`, `A-F`). -/
def isHexDigitChar (c : Char) : Bool :=
  decide ((48 ≤ c.toNat ∧ c.toNat ≤ 57) ∨ (97 ≤ c.toNat ∧ c.toNat ≤ 102) ∨
    (65 ≤ c.toNat ∧ c.toNat ≤ 70))

/-- Octal digit character (`0-7`). -/
def isOctDigitChar (c : Char) : Bool := decide (48 ≤ c.toNat ∧ c.toNat ≤ 55)

/-- Binary digit character (`0` or `1`). -/
def isBinDigitChar (c : Char) : Bool := decide (c.toNat = 48 ∨ c.toNat = 49)

/-- Strip the `StrWhiteSpace` allowed around a string numeric literal. -/
def trimJs (cs : List Char) : List Char :=
  ((cs.dropWhile isStrWhiteChar).reverse.dropWhile isStrWhiteChar).reverse

/-- Strip one optional leading sign (`+` is 43, `-` is 45). -/
def signStrip (cs : List Char) : List Char :=
  match cs with
  | [] => []
  | c :: rest => if c.toNat == 43 || c.toNat == 45 then rest else cs

/-- Recognize an optional ECMAScript `ExponentPart` occupying the whole list
(`e`/`E` is 101/69, then optional sign, then one or more decimal digits). -/
def exponentTail (cs : List Char) : Bool :=
  match cs with
  | [] => true
  | c :: rest =>
    (c.toNat == 101 || c.toNat == 69) &&
      (let ds := signStrip rest
       !ds.isEmpty && ds.all isDecDigit)

/-- Recognize an ECMAScript `StrUnsignedDecimalLiteral` occupying the whole
list: `Infinity`, or decimal digits with an optional fraction (`.` is 46) and
an optional exponent. -/
def unsignedDecLiteral (cs : List Char) : Bool :=
  if cs = "Infinity".toList then true
  else
    let d1 := cs.takeWhile isDecDigit
    match cs.dropWhile isDecDigit with
    | c :: r2 =>
      if c.toNat == 46 then
        let d2 := r2.takeWhile isDecDigit
        (!d1.isEmpty || !d2.isEmpty) && exponentTail (r2.dropWhile isDecDigit)
      else !d1.isEmpty && exponentTail (c :: r2)
    | [] => !d1.isEmpty

/-- Recognize an ECMAScript `NonDecimalIntegerLiteral` (`0x`/`0X` hex,
`0o`/`0O` octal, `0b`/`0B` binary; no sign allowed). -/
def nonDecimalLiteral (cs : List Char) : Bool :=
  match cs with
  | c0 :: x :: rest =>
    c0.toNat == 48 &&
      (((x.toNat == 120 || x.toNat == 88) && !rest.isEmpty && rest.all isHexDigitChar) ||
       ((x.toNat == 111 || x.toNat == 79) && !rest.isEmpty && rest.all isOctDigitChar) ||
       ((x.toNat == 98 || x.toNat == 66) && !rest.isEmpty && rest.all isBinDigitChar))
  | _ => false

/-- Model of `!isNaN(s)` for a string `s` (src/airdrop-signature.js:112):
`isNaN` coerces with `ToNumber`, and `ToNumber` of a string is `NaN` exactly
when the trimmed string is non-empty and is not a `StrNumericLiteral`; a
syntactically valid literal never evaluates to `NaN` (overflow gives
`Infinity`), so the branch test is this pure syntax check. -/
def jsNumberParses (s : String) : Bool :=
  let cs := trimJs s.toList
  cs.isEmpty || nonDecimalLiteral cs || unsignedDecLiteral (signStrip cs)

/-- Value of a most-significant-first decimal digit character list. -/
def digitsToNat (cs : List Char) : Nat :=
  cs.foldl (fun a c => 10 * a + (c.toNat - 48)) 0

/-- Value of a most-significant-first hexadecimal digit character list. -/
def hexDigitsToNat (cs : List Char) : Nat :=
  cs.foldl (fun a c =>
    16 * a + (if c.toNat ≤ 57 then c.toNat - 48
              else if c.toNat ≤ 70 then c.toNat - 55 else c.toNat - 87)) 0

/-- Modelled from the spec's words for the claimed branch condition: the
specifier "parses fully as a non-negative integer representable in 64 bits"
(a non-empty all-decimal-digit string whose value is below `2^64`).  This
definition follows the specification, to be compared with the source-derived
branch test `jsNumberParses`. -/
def specParsesU64 (s : String) : Prop :=
  s.toList ≠ [] ∧ (∀ c ∈ s.toList, isDecDigit c = true) ∧
    digitsToNat s.toList < 18446744073709551616

instance (s : String) : Decidable (specParsesU64 s) := by
  unfold specParsesU64; infer_instance

/-- Model of `parseInt(s)` with no radix argument (src/airdrop-signature.js:114):
strip leading whitespace, take one optional sign, detect a `0x`/`0X` prefix
(hex) and otherwise read the longest leading run of decimal digits; no digits
gives `NaN` (`none`).  The source only reaches this after `!isNaN(s)`.  (A JS
number is a binary64 float, so integers above `2^53` are rounded; every input
this development evaluates `jsParseInt` on is exactly representable.) -/
def jsParseInt (s : String) : Option Int :=
  let cs := s.toList.dropWhile isStrWhiteChar
  let sign : Int := match cs with
    | c :: _ => if c.toNat == 45 then -1 else 1
    | [] => 1
  let cs1 := signStrip cs
  match cs1 with
  | c0 :: x :: rest =>
    if c0.toNat == 48 && (x.toNat == 120 || x.toNat == 88) then
      let ds := rest.takeWhile isHexDigitChar
      if ds.isEmpty then none else some (sign * (hexDigitsToNat ds : Int))
    else
      let ds := cs1.takeWhile isDecDigit
      if ds.isEmpty then none else some (sign * (digitsToNat ds : Int))
  | _ =>
    let ds := cs1.takeWhile isDecDigit
    if ds.isEmpty then none else some (sign * (digitsToNat ds : Int))

/-- The three resolution tiers of the destination-specifier encoder
(src/airdrop-signature.js:109-130). -/
inductive SpecifierTier where
  | numeric
  | address
  | raw
  deriving DecidableEq

/-- Which branch of src/airdrop-signature.js:112-129 a string specifier takes:
the `!isNaN` test selects the numeric branch, otherwise `decodeAddress`
success selects the address branch, otherwise the raw-UTF-8 fallback runs.
`decodeAddr` models the external `@polkadot/keyring` `decodeAddress`
(`none` models a throw). -/
def specifierTierOf (decodeAddr : String → Option (List Nat)) (s : String) :
    SpecifierTier :=
  if jsNumberParses s then .numeric
  else match decodeAddr s with
    | some _ => .address
    | none => .raw

/-- `destAccount` as computed by src/airdrop-signature.js:109-130: the numeric
branch encodes `parseInt(s)` as a u64, the address branch uses the decoded
public key bytes, the fallback uses the UTF-8 bytes of the specifier. -/
def destAccountOf (decodeAddr : String → Option (List Nat)) (s : String) :
    List Nat :=
  if jsNumberParses s then encodeU64num (jsParseInt s)
  else match decodeAddr s with
    | some publicKey => publicKey
    | none => utf8Encode s

/-- Write `src` into `buf` at `offset`, as `Uint8Array.prototype.set` does
when `offset + src.length ≤ buf.length` (the only way it is used here). -/
def u8aSet (buf src : List Nat) (offset : Nat) : List Nat :=
  buf.take offset ++ src ++ buf.drop (offset + src.length)

/-- Signature assembly of src/airdrop-signature.js:154-167: a zero-filled
65-byte buffer receives `r` at offset 0 and `s` at offset 32, and byte 64 is
`v === 27 ? 0 : 1`. -/
def assembleSignature (rBytes sBytes : List Nat) (v : Nat) : List Nat :=
  let buf0 := List.replicate 65 0
  let buf1 := u8aSet buf0 rBytes 0
  let buf2 := u8aSet buf1 sBytes 32
  buf2.set 64 (if v = 27 then 0 else 1)

/-- External library calls made by `generateClaimSignature`, modelled as
functions: `validKey` is the private-key validation done by
`new ethers.Wallet` (line 100, throws on a malformed key), `addressOf` is
`wallet.address`, `decodeAddr` is `@polkadot/keyring.decodeAddress`
(line 120, `none` for a throw), `keccak256` is `ethers.keccak256` (line 143),
and `ecdsaSign` is `SigningKey.sign` on a digest (line 151), returning the
`r` bytes, `s` bytes and recovery value `v`, or `none` for a throw. -/
structure Libs where
  validKey : String → Bool
  addressOf : String → String
  decodeAddr : String → Option (List Nat)
  keccak256 : List Nat → List Nat
  ecdsaSign : List Nat → String → Option (List Nat × List Nat × Nat)

/-- Errors `generateClaimSignature` can propagate (as thrown exceptions). -/
inductive ClaimError where
  | invalidKey
  | signingError
  deriving DecidableEq

/-- The value returned by `generateClaimSignature` (src/airdrop-signature.js:
176-179); the signature is kept as its 65 bytes (line 173 only re-renders the
same bytes as a hex string for transmission). -/
structure ClaimSignature where
  signature : List Nat
  ethereumAddress : String
  deriving DecidableEq

/-- Instrumentation of the signing pipeline: every input passed to
`keccak256` and every digest passed to `ecdsaSign`, in call order. -/
structure RunLog where
  hashedInputs : List (List Nat)
  signedDigests : List (List Nat)
  deriving DecidableEq

/-- Outcome of one `generateClaimSignature` call together with its log. -/
structure RunResult where
  outcome : Except ClaimError ClaimSignature
  log : RunLog

/-- The signable message built for a specifier: line 139 applied to the
hex-encoded canonical account bytes, with the default empty `extra`. -/
def messageOf (libs : Libs) (s : String) : List Nat :=
  createEthereumSignableMessage (toAsciiHex (destAccountOf libs.decodeAddr s))

/-- `generateClaimSignature` (src/airdrop-signature.js:98-180) over a string
specifier.  The wallet construction on line 100 validates the private key
before anything else; the network connection on lines 104-106 is external
plumbing with no effect on the computed bytes and is not modelled.  An
exception anywhere leaves the function with no return value, which `Except`
captures. -/
def generateClaimSignature (libs : Libs) (ethereumPrivateKey substrateAddress : String) :
    RunResult :=
  if libs.validKey ethereumPrivateKey then
    let destAccount := destAccountOf libs.decodeAddr substrateAddress
    let accountHexEncoded := toAsciiHex destAccount
    let message := createEthereumSignableMessage accountHexEncoded
    let messageHash := libs.keccak256 message
    let log : RunLog := { hashedInputs := [message], signedDigests := [messageHash] }
    match libs.ecdsaSign messageHash ethereumPrivateKey with
    | none => { outcome := .error .signingError, log := log }
    | some (r, sBytes, v) =>
      { outcome := .ok { signature := assembleSignature r sBytes v,
                         ethereumAddress := libs.addressOf ethereumPrivateKey },
        log := log }
  else
    { outcome := .error .invalidKey, log := { hashedInputs := [], signedDigests := [] } }

/-- The JavaScript value passed as `signature` to `submitSignature`
(src/airdrop-claim.js:4): a string, a `Uint8Array`, or anything else. -/
inductive JsSigValue where
  | str (s : String)
  | bytes (b : List Nat)
  | other

/-- Errors thrown by the validation part of `submitSignature`. -/
inductive SubmitError where
  | notStringOrBytes
  | badLength (n : Nat)
  deriving DecidableEq

/-- The `startsWith('0x') ? slice(2) : s` step of src/airdrop-claim.js:10
(`0` is 48, `x` is 120). -/
def cleanHexChars (cs : List Char) : List Char :=
  match cs with
  | c0 :: x :: rest => if c0.toNat == 48 && x.toNat == 120 then rest else cs
  | _ => cs

/-- Hex digit value of one character, `none` for a non-hex character. -/
def hexCharDigit (c : Char) : Option Nat :=
  if 48 ≤ c.toNat ∧ c.toNat ≤ 57 then some (c.toNat - 48)
  else if 97 ≤ c.toNat ∧ c.toNat ≤ 102 then some (c.toNat - 87)
  else if 65 ≤ c.toNat ∧ c.toNat ≤ 70 then some (c.toNat - 55)
  else none

/-- Node's `Buffer.from(s, 'hex')` (src/airdrop-claim.js:11): decode
character pairs until the first invalid character or a dangling final
character, silently dropping everything from there on. -/
def bufferFromHex : List Char → List Nat
  | c1 :: c2 :: rest =>
    match hexCharDigit c1, hexCharDigit c2 with
    | some hi, some lo => (16 * hi + lo) :: bufferFromHex rest
    | _, _ => []
  | _ => []

/-- The validation part of `submitSignature` (src/airdrop-claim.js:4-21): a
string is hex-decoded after stripping an optional `0x`, a `Uint8Array` is
taken as-is, anything else throws; then a single length check throws unless
the byte count is exactly 65.  Everything after this check (the network
submission) happens only on the `ok` path and is external plumbing. -/
def submitSignatureValidate (v : JsSigValue) : Except SubmitError (List Nat) :=
  match v with
  | .other => .error .notStringOrBytes
  | .str s =>
    let b := bufferFromHex (cleanHexChars s.toList)
    if b.length ≠ 65 then .error (.badLength b.length) else .ok b
  | .bytes b =>
    if b.length ≠ 65 then .error (.badLength b.length) else .ok b

/-- A concrete, well-behaved collaborator set used to evaluate the pipeline
theorems on closed inputs. -/
def libsDemo : Libs :=
  { validKey := fun _ => true,
    addressOf := fun _ => "0xdemo",
    decodeAddr := fun _ => none,
    keccak256 := fun _ => List.replicate 32 7,
    ecdsaSign := fun _ _ => some (List.replicate 32 1, List.replicate 32 2, 27) }

/-- `libsDemo` with a key validator that rejects every key (models a
malformed private key given to `new ethers.Wallet`). -/
def libsBadKey : Libs := { libsDemo with validKey := fun _ => false }

/-- `libsDemo` with a signer that always throws. -/
def libsNoSign : Libs := { libsDemo with ecdsaSign := fun _ _ => none }

theorem jsToUint32_of_small (n : Nat) (h : n < 4294967296) :
    jsToUint32 (some (n : Int)) = n := by
  simp only [jsToUint32]
  omega

/-- C1 (amended): for every non-negative integer below `2^32`, `encodeU64`
returns exactly 8 little-endian bytes whose little-endian reading reproduces
the input. -/
theorem encodeU64_roundtrip_32bit (n : Nat) (h : n < 4294967296) :
    (encodeU64 n).length = 8 ∧ (∀ b ∈ encodeU64 n, b < 256) ∧
      fromListLE (encodeU64 n) = n := by
  unfold encodeU64 encodeU64num fromListLE
  rw [jsToUint32_of_small n h]
  refine ⟨rfl, ?_, ?_⟩
  · intro b hb
    simp only [List.mem_cons, List.not_mem_nil, or_false] at hb
    rcases hb with h1 | h1 | h1 | h1 | h1 | h1 | h1 | h1 <;> subst h1 <;> omega
  · simp only [List.foldr]
    omega

/-- C1 (witness): the amended round-trip at the concrete input 3000000000,
which exercises bytes above the signed-32-bit boundary. -/
theorem encodeU64_roundtrip_32bit_witness :
    (encodeU64 3000000000).length = 8 ∧ (∀ b ∈ encodeU64 3000000000, b < 256) ∧
      fromListLE (encodeU64 3000000000) = 3000000000 :=
  encodeU64_roundtrip_32bit 3000000000 (by decide)

/-- C1 (counterexample): at `n = 2^32`, which the claim's range `n < 2^64`
includes, `encodeU64` produces the all-zero bytes, so the little-endian
reading gives 0, not `n`: the JavaScript 32-bit bitwise operators of lines
18-21 truncate, and bytes 4..7 are hardcoded zero. -/
theorem encodeU64_truncates_at_2_pow_32 :
    4294967296 < 18446744073709551616 ∧
      encodeU64 4294967296 = List.replicate 8 0 ∧
      fromListLE (encodeU64 4294967296) = 0 ∧
      fromListLE (encodeU64 4294967296) ≠ 4294967296 := by
  refine ⟨by decide, by decide, by decide, by decide⟩

theorem hexNibble_bounds (n : Nat) (h : n < 16) :
    (48 ≤ hexNibble n ∧ hexNibble n ≤ 57) ∨
      (97 ≤ hexNibble n ∧ hexNibble n ≤ 102) := by
  unfold hexNibble
  split <;> omega

theorem hexCharVal_hexNibble (n : Nat) (h : n < 16) :
    hexCharVal (hexNibble n) = n := by
  unfold hexNibble hexCharVal
  split <;> split <;> omega

theorem toAsciiHex_length (d : List Nat) : (toAsciiHex d).length = 2 * d.length := by
  induction d with
  | nil => rfl
  | cons b rest ih => simp [toAsciiHex, ih]; omega

theorem fromAsciiHex_toAsciiHex (d : List Nat) (hd : ∀ b ∈ d, b < 256) :
    fromAsciiHex (toAsciiHex d) = d := by
  induction d with
  | nil => rfl
  | cons b rest ih =>
    have hb : b < 256 := hd b (List.mem_cons_self b rest)
    have h1 : b / 16 < 16 := by omega
    have h2 : b % 16 < 16 := by omega
    simp only [toAsciiHex, fromAsciiHex,
      hexCharVal_hexNibble _ h1, hexCharVal_hexNibble _ h2]
    rw [ih fun x hx => hd x (List.mem_cons_of_mem b hx)]
    congr 1
    omega

theorem toAsciiHex_mem_range (d : List Nat) (hd : ∀ b ∈ d, b < 256) :
    ∀ c ∈ toAsciiHex d, (48 ≤ c ∧ c ≤ 57) ∨ (97 ≤ c ∧ c ≤ 102) := by
  induction d with
  | nil => intro c hc; simp [toAsciiHex] at hc
  | cons b rest ih =>
    intro c hc
    have hb : b < 256 := hd b (List.mem_cons_self b rest)
    simp only [toAsciiHex, List.mem_cons] at hc
    rcases hc with h1 | h1 | h1
    · exact h1 ▸ hexNibble_bounds (b / 16) (by omega)
    · exact h1 ▸ hexNibble_bounds (b % 16) (by omega)
    · exact ih (fun x hx => hd x (List.mem_cons_of_mem b hx)) c h1

/-- C3: on byte sequences, `toAsciiHex` doubles the length, emits only
lowercase ASCII hex character codes, is inverted by the hex-text decoder
(round-trip), and is injective. -/
theorem toAsciiHex_spec (d : List Nat) (hd : ∀ b ∈ d, b < 256) :
    (toAsciiHex d).length = 2 * d.length ∧
      (∀ c ∈ toAsciiHex d, (48 ≤ c ∧ c ≤ 57) ∨ (97 ≤ c ∧ c ≤ 102)) ∧
      fromAsciiHex (toAsciiHex d) = d ∧
      ∀ d2, (∀ b ∈ d2, b < 256) → toAsciiHex d2 = toAsciiHex d → d2 = d := by
  refine ⟨toAsciiHex_length d, toAsciiHex_mem_range d hd,
    fromAsciiHex_toAsciiHex d hd, ?_⟩
  intro d2 hd2 heq
  calc d2 = fromAsciiHex (toAsciiHex d2) := (fromAsciiHex_toAsciiHex d2 hd2).symm
    _ = fromAsciiHex (toAsciiHex d) := by rw [heq]
    _ = d := fromAsciiHex_toAsciiHex d hd

/-- C3 (witness): the conjunction at the concrete byte list `[0, 66, 171, 255]`. -/
theorem toAsciiHex_spec_witness :
    (toAsciiHex [0, 66, 171, 255]).length = 2 * 4 ∧
      (∀ c ∈ toAsciiHex [0, 66, 171, 255],
        (48 ≤ c ∧ c ≤ 57) ∨ (97 ≤ c ∧ c ≤ 102)) ∧
      fromAsciiHex (toAsciiHex [0, 66, 171, 255]) = [0, 66, 171, 255] ∧
      ∀ d2, (∀ b ∈ d2, b < 256) →
        toAsciiHex d2 = toAsciiHex [0, 66, 171, 255] → d2 = [0, 66, 171, 255] :=
  toAsciiHex_spec [0, 66, 171, 255] (by decide)

theorem decimalReprAux_zero (fuel : Nat) (acc : List Nat) :
    decimalReprAux fuel 0 acc = acc := by
  cases fuel <;> simp [decimalReprAux]

theorem decimalReprAux_acc (fuel : Nat) :
    ∀ n acc, decimalReprAux fuel n acc = decimalReprAux fuel n [] ++ acc := by
  induction fuel with
  | zero => intro n acc; simp [decimalReprAux]
  | succ fuel ih =>
    intro n acc
    by_cases hn : n = 0
    · subst hn; simp [decimalReprAux]
    · simp only [decimalReprAux, if_neg hn]
      rw [ih (n / 10) ((48 + n % 10) :: acc), ih (n / 10) [48 + n % 10]]
      simp

theorem decodeDec_append_digit (xs : List Nat) (d : Nat) :
    decodeDec (xs ++ [d]) = 10 * decodeDec xs + (d - 48) := by
  simp [decodeDec, List.foldl_append]

theorem decimalReprAux_spec (n : Nat) :
    ∀ fuel, 0 < n → n ≤ fuel →
      decodeDec (decimalReprAux fuel n []) = n ∧
      (∀ c ∈ decimalReprAux fuel n [], 48 ≤ c ∧ c ≤ 57) ∧
      decimalReprAux fuel n [] ≠ [] ∧
      (decimalReprAux fuel n []).head? ≠ some 48 := by
  induction n using Nat.strong_induction_on with
  | _ n ih =>
    intro fuel hn hfuel
    match fuel with
    | 0 => omega
    | f + 1 =>
      have hne : n ≠ 0 := by omega
      have hstep : decimalReprAux (f + 1) n [] =
          decimalReprAux f (n / 10) [] ++ [48 + n % 10] := by
        simp only [decimalReprAux, if_neg hne]
        exact decimalReprAux_acc f (n / 10) [48 + n % 10]
      by_cases hq : n / 10 = 0
      · have hlt : n < 10 := by omega
        rw [hstep, hq, decimalReprAux_zero]
        refine ⟨?_, ?_, by simp, ?_⟩
        · simp [decodeDec]; omega
        · intro c hc
          simp only [List.nil_append, List.mem_singleton] at hc
          omega
        · simp only [List.nil_append, List.head?]
          intro h
          have := Option.some.inj h
          omega
      · have hq1 : 0 < n / 10 := Nat.pos_of_ne_zero hq
        have hq2 : n / 10 < n := Nat.div_lt_self hn (by omega)
        have hq3 : n / 10 ≤ f := by omega
        obtain ⟨ihd, ihr, ihne, ihh⟩ := ih (n / 10) hq2 f hq1 hq3
        rw [hstep]
        refine ⟨?_, ?_, by simp, ?_⟩
        · rw [decodeDec_append_digit, ihd]; omega
        · intro c hc
          rcases List.mem_append.mp hc with h1 | h1
          · exact ihr c h1
          · simp only [List.mem_singleton] at h1; omega
        · cases hx : decimalReprAux f (n / 10) [] with
          | nil => exact absurd hx ihne
          | cons a t =>
            rw [hx] at ihh
            simpa using ihh

theorem decimalRepr_spec (n : Nat) (hn : 0 < n) :
    decodeDec (decimalRepr n) = n ∧
      (∀ c ∈ decimalRepr n, 48 ≤ c ∧ c ≤ 57) ∧
      (decimalRepr n).head? ≠ some 48 := by
  unfold decimalRepr
  rw [if_neg (by omega)]
  obtain ⟨h1, h2, _, h4⟩ := decimalReprAux_spec n n hn (Nat.le_refl n)
  exact ⟨h1, h2, h4⟩

/-- C4: the signable message is exactly the concatenation of the fixed
preamble bytes, the ASCII-decimal digit characters (in `48..57`, no leading
zero, denoting the payload length) of
`payloadLength = prefixBytes.length + what.length + extra.length`, the prefix
constant `"Pay RUSTs to the TEST account:"`, `what` and `extra`; the total
length is `26 + digitsLen + payloadLength`, and the length field counts
neither the 26 preamble bytes nor the length text itself. -/
theorem createEthereumSignableMessage_spec (what extra : List Nat) :
    createEthereumSignableMessage what extra
        = headerBytes ++ decimalRepr (30 + what.length + extra.length)
            ++ prefixBytes ++ what ++ extra ∧
      headerBytes = [25, 69, 116, 104, 101, 114, 101, 117, 109, 32, 83, 105,
        103, 110, 101, 100, 32, 77, 101, 115, 115, 97, 103, 101, 58, 10] ∧
      prefixBytes = [80, 97, 121, 32, 82, 85, 83, 84, 115, 32, 116, 111, 32,
        116, 104, 101, 32, 84, 69, 83, 84, 32, 97, 99, 99, 111, 117, 110,
        116, 58] ∧
      headerBytes.length = 26 ∧ prefixBytes.length = 30 ∧
      (createEthereumSignableMessage what extra).length
        = 26 + (decimalRepr (30 + what.length + extra.length)).length
            + (30 + what.length + extra.length) ∧
      decodeDec (decimalRepr (30 + what.length + extra.length))
        = 30 + what.length + extra.length ∧
      (∀ c ∈ decimalRepr (30 + what.length + extra.length), 48 ≤ c ∧ c ≤ 57) ∧
      (decimalRepr (30 + what.length + extra.length)).head? ≠ some 48 := by
  obtain ⟨h1, h2, h3⟩ :=
    decimalRepr_spec (30 + what.length + extra.length) (by omega)
  have hpl : prefixBytes.length = 30 := by decide
  refine ⟨?_, by decide, by decide, by decide, hpl, ?_, h1, h2, h3⟩
  · unfold createEthereumSignableMessage
    rw [hpl]
  · unfold createEthereumSignableMessage
    rw [hpl]
    simp only [List.length_append]
    have : headerBytes.length = 26 := by decide
    omega

theorem digit_facts (c : Char) (h : isDecDigit c = true) :
    48 ≤ c.toNat ∧ c.toNat ≤ 57 := by
  simpa [isDecDigit] using h

theorem digit_not_white (c : Char) (h : isDecDigit c = true) :
    isStrWhiteChar c = false := by
  have := digit_facts c h
  simp only [isStrWhiteChar, Bool.or_eq_false_iff, beq_eq_false_iff_ne, ne_eq]
  omega

theorem dropWhile_of_forall_not {p : Char → Bool} (cs : List Char)
    (h : ∀ c ∈ cs, p c = false) : cs.dropWhile p = cs := by
  cases cs with
  | nil => rfl
  | cons a t => simp [List.dropWhile_cons, h a (List.mem_cons_self a t)]

theorem trimJs_of_digits (cs : List Char)
    (hd : ∀ c ∈ cs, isDecDigit c = true) : trimJs cs = cs := by
  unfold trimJs
  have h1 : ∀ c ∈ cs, isStrWhiteChar c = false :=
    fun c hc => digit_not_white c (hd c hc)
  have h2 : ∀ c ∈ cs.reverse, isStrWhiteChar c = false :=
    fun c hc => h1 c (List.mem_reverse.mp hc)
  rw [dropWhile_of_forall_not cs h1, dropWhile_of_forall_not cs.reverse h2,
    List.reverse_reverse]

theorem takeWhile_of_forall {p : Char → Bool} (cs : List Char)
    (h : ∀ c ∈ cs, p c = true) :
    cs.takeWhile p = cs ∧ cs.dropWhile p = [] := by
  induction cs with
  | nil => exact ⟨rfl, rfl⟩
  | cons a t ih =>
    have ha := h a (List.mem_cons_self a t)
    obtain ⟨h1, h2⟩ := ih fun c hc => h c (List.mem_cons_of_mem a hc)
    simp [List.takeWhile_cons, List.dropWhile_cons, ha, h1, h2]

theorem signStrip_of_digits (cs : List Char)
    (hd : ∀ c ∈ cs, isDecDigit c = true) : signStrip cs = cs := by
  cases cs with
  | nil => rfl
  | cons a t =>
    have := digit_facts a (hd a (List.mem_cons_self a t))
    have hne : (a.toNat == 43 || a.toNat == 45) = false := by
      simp only [Bool.or_eq_false_iff, beq_eq_false_iff_ne, ne_eq]
      omega
    simp [signStrip, hne]

theorem unsignedDecLiteral_of_digits (cs : List Char) (h0 : cs ≠ [])
    (hd : ∀ c ∈ cs, isDecDigit c = true) : unsignedDecLiteral cs = true := by
  have hInf : cs ≠ "Infinity".toList := by
    intro h
    have hI : isDecDigit 'I' = true := hd 'I' (by rw [h]; decide)
    exact absurd hI (by decide)
  obtain ⟨ht, hdr⟩ := takeWhile_of_forall cs hd
  simp only [unsignedDecLiteral, if_neg hInf, ht, hdr]
  simp [h0]

theorem jsNumberParses_of_digits (s : String) (h0 : s.toList ≠ [])
    (hd : ∀ c ∈ s.toList, isDecDigit c = true) : jsNumberParses s = true := by
  unfold jsNumberParses
  simp only [trimJs_of_digits s.toList hd, signStrip_of_digits s.toList hd,
    unsignedDecLiteral_of_digits s.toList h0 hd]
  simp

/-- C2 (amended): every specifier that parses fully as a non-negative 64-bit
integer takes the numeric branch, but the converse direction of the claim
fails: the `!isNaN` test of line 112 also accepts numeric-looking strings
outside the 64-bit range, which are therefore encoded in the numeric branch
(via `parseInt` and 32-bit truncation) instead of falling through to the
chain-address or raw-UTF-8 tiers; no input throws. -/
theorem numeric_branch_superset (decodeAddr : String → Option (List Nat))
    (s : String) (h : specParsesU64 s) :
    specifierTierOf decodeAddr s = SpecifierTier.numeric := by
  obtain ⟨h0, hd, _⟩ := h
  unfold specifierTierOf
  rw [jsNumberParses_of_digits s h0 hd]
  simp

/-- C2 (witness): the amended claim at the concrete specifier `"42"`. -/
theorem numeric_branch_superset_witness :
    specifierTierOf (fun _ => none) "42" = SpecifierTier.numeric :=
  numeric_branch_superset (fun _ => none) "42" (by decide)

/-- C2 (counterexample): the specifier `"18446744073709551616"` (`2^64`) does
not parse as a 64-bit integer, yet the encoder takes the numeric branch
whatever `decodeAddress` would do — it does not fall through to the
chain-address or raw tier — and the numeric branch encodes it as the
all-zero bytes (`2^64 mod 2^32 = 0`). -/
theorem numeric_branch_out_of_range :
    ¬ specParsesU64 "18446744073709551616" ∧
      specifierTierOf (fun _ => some (List.replicate 32 0)) "18446744073709551616"
        = SpecifierTier.numeric ∧
      specifierTierOf (fun _ => none) "18446744073709551616"
        = SpecifierTier.numeric ∧
      destAccountOf (fun _ => none) "18446744073709551616"
        = [0, 0, 0, 0, 0, 0, 0, 0] := by
  refine ⟨by decide, by decide, by decide, by decide⟩

theorem take_append_len {α : Type} (l1 l2 : List α) :
    (l1 ++ l2).take l1.length = l1 := by
  induction l1 with
  | nil => rfl
  | cons a t ih => simp [List.cons_append, List.length_cons, ih]

theorem drop_append_add {α : Type} (l1 l2 : List α) (n : Nat) :
    (l1 ++ l2).drop (l1.length + n) = l2.drop n := by
  induction l1 with
  | nil => simp
  | cons a t ih =>
    have : (a :: t).length + n = (t.length + n) + 1 := by simp; omega
    rw [this, List.cons_append, List.drop_succ_cons, ih]

theorem set_append_len {α : Type} (l1 l2 : List α) (x : α) :
    (l1 ++ l2).set l1.length x = l1 ++ l2.set 0 x := by
  induction l1 with
  | nil => rfl
  | cons a t ih =>
    simp only [List.cons_append, List.length_cons, List.set_cons_succ]
    rw [ih]

theorem assembleSignature_eq (r s : List Nat) (v : Nat)
    (hr : r.length = 32) (hs : s.length = 32) :
    assembleSignature r s v = (r ++ s) ++ [if v = 27 then 0 else 1] := by
  have hbuf1 : u8aSet (List.replicate 65 0) r 0 = r ++ List.replicate 33 0 := by
    unfold u8aSet
    rw [hr, (by decide : (List.replicate 65 (0 : Nat)).drop (0 + 32)
      = List.replicate 33 (0 : Nat))]
    simp
  have hbuf2 : u8aSet (r ++ List.replicate 33 0) s 32 = (r ++ s) ++ [0] := by
    unfold u8aSet
    rw [← hr, take_append_len, drop_append_add, hs]
    rfl
  have hlen : (r ++ s).length = 64 := by simp [hr, hs]
  have hzeta : assembleSignature r s v =
      (u8aSet (u8aSet (List.replicate 65 0) r 0) s 32).set 64
        (if v = 27 then 0 else 1) := rfl
  rw [hzeta, hbuf1, hbuf2, ← hlen, set_append_len]
  rfl

theorem assembleSignature_len (r s : List Nat) (v : Nat)
    (hr : r.length = 32) (hs : s.length = 32) :
    (assembleSignature r s v).length = 65 := by
  rw [assembleSignature_eq r s v hr hs]
  simp [hr, hs]

/-- C6: with the 32-byte `r` and `s` components delivered by the signing
library, the assembled signature is exactly `r ‖ s ‖ recoveryId` (65 bytes);
the final byte is 0 when the library's recovery value is 27, 1 when it is 28,
and is always 0 or 1. -/
theorem assembleSignature_layout (r s : List Nat) (v : Nat)
    (hr : r.length = 32) (hs : s.length = 32) :
    assembleSignature r s v = (r ++ s) ++ [if v = 27 then 0 else 1] ∧
      (assembleSignature r s v).length = 65 ∧
      (assembleSignature r s v).getLast? = some (if v = 27 then 0 else 1) ∧
      ((assembleSignature r s v).getLast? = some 0 ∨
        (assembleSignature r s v).getLast? = some 1) ∧
      (v = 27 → (assembleSignature r s v).getLast? = some 0) ∧
      (v = 28 → (assembleSignature r s v).getLast? = some 1) := by
  have key := assembleSignature_eq r s v hr hs
  have hlast : (assembleSignature r s v).getLast? = some (if v = 27 then 0 else 1) := by
    rw [key, List.getLast?_concat]
  refine ⟨key, assembleSignature_len r s v hr hs, hlast, ?_, ?_, ?_⟩
  · by_cases h : v = 27
    · left; rw [hlast, if_pos h]
    · right; rw [hlast, if_neg h]
  · intro h; rw [hlast, if_pos h]
  · intro h; rw [hlast, if_neg (by omega)]

/-- C6 (witness): the layout at concrete 32-byte `r` and `s` and `v = 27`. -/
theorem assembleSignature_layout_witness :
    assembleSignature (List.replicate 32 1) (List.replicate 32 2) 27
        = (List.replicate 32 1 ++ List.replicate 32 2) ++ [if 27 = 27 then 0 else 1] ∧
      (assembleSignature (List.replicate 32 1) (List.replicate 32 2) 27).length = 65 ∧
      (assembleSignature (List.replicate 32 1) (List.replicate 32 2) 27).getLast?
        = some (if 27 = 27 then 0 else 1) ∧
      ((assembleSignature (List.replicate 32 1) (List.replicate 32 2) 27).getLast? = some 0 ∨
        (assembleSignature (List.replicate 32 1) (List.replicate 32 2) 27).getLast? = some 1) ∧
      (27 = 27 →
        (assembleSignature (List.replicate 32 1) (List.replicate 32 2) 27).getLast? = some 0) ∧
      (27 = 28 →
        (assembleSignature (List.replicate 32 1) (List.replicate 32 2) 27).getLast? = some 1) :=
  assembleSignature_layout (List.replicate 32 1) (List.replicate 32 2) 27
    (by decide) (by decide)

theorem generateClaimSignature_valid_run (libs : Libs) (key spec : String)
    (hkey : libs.validKey key = true) :
    generateClaimSignature libs key spec =
      match libs.ecdsaSign (libs.keccak256 (messageOf libs spec)) key with
      | none =>
        { outcome := .error .signingError,
          log := { hashedInputs := [messageOf libs spec],
                   signedDigests := [libs.keccak256 (messageOf libs spec)] } }
      | some (r, sBytes, v) =>
        { outcome := .ok { signature := assembleSignature r sBytes v,
                           ethereumAddress := libs.addressOf key },
          log := { hashedInputs := [messageOf libs spec],
                   signedDigests := [libs.keccak256 (messageOf libs spec)] } } := by
  unfold generateClaimSignature messageOf
  rw [if_pos hkey]

/-- C5: in a run that passes key validation, the signing pipeline hashes
exactly one input — the built signable message — and the digest handed to the
secp256k1 signing call is exactly that single hash output, unmodified (no
second hash and no extra wrapping between hashing and signing); with the
library's 256-bit digests, every signed digest is 32 bytes.  The identity of
the hash (`ethers.keccak256`, the Keccak-256 variant) is the library call
made on line 143, modelled here as the `keccak256` parameter. -/
theorem message_hashed_once (libs : Libs) (key spec : String)
    (hkey : libs.validKey key = true)
    (hlen : ∀ m, (libs.keccak256 m).length = 32) :
    (generateClaimSignature libs key spec).log.hashedInputs = [messageOf libs spec] ∧
      (generateClaimSignature libs key spec).log.signedDigests
        = [libs.keccak256 (messageOf libs spec)] ∧
      ∀ d ∈ (generateClaimSignature libs key spec).log.signedDigests, d.length = 32 := by
  rw [generateClaimSignature_valid_run libs key spec hkey]
  cases h : libs.ecdsaSign (libs.keccak256 (messageOf libs spec)) key with
  | none => simp [hlen]
  | some t => obtain ⟨r, sB, v⟩ := t; simp [hlen]

/-- C5 (witness): the property at a concrete collaborator set and inputs. -/
theorem message_hashed_once_witness :
    (generateClaimSignature libsDemo "k" "42").log.hashedInputs
        = [messageOf libsDemo "42"] ∧
      (generateClaimSignature libsDemo "k" "42").log.signedDigests
        = [libsDemo.keccak256 (messageOf libsDemo "42")] ∧
      ∀ d ∈ (generateClaimSignature libsDemo "k" "42").log.signedDigests,
        d.length = 32 :=
  message_hashed_once libsDemo "k" "42" rfl (fun _ => rfl)

/-- C8: an invalid private key makes the run fail with `invalidKey` while the
hash-call log stays empty (the key is rejected before any hashing); a signing
failure yields `signingError` with no signature value; and any successful
outcome carries exactly the assembled 65-byte signature of a successful
library signing call — there is no partial-success state. -/
theorem signing_atomicity (libs : Libs) (key spec : String) :
    (libs.validKey key = false →
      generateClaimSignature libs key spec =
        { outcome := .error .invalidKey,
          log := { hashedInputs := [], signedDigests := [] } }) ∧
    (libs.validKey key = true →
      libs.ecdsaSign (libs.keccak256 (messageOf libs spec)) key = none →
      (generateClaimSignature libs key spec).outcome = .error .signingError) ∧
    (∀ sig, (generateClaimSignature libs key spec).outcome = .ok sig →
      ∃ r sB v,
        libs.ecdsaSign (libs.keccak256 (messageOf libs spec)) key = some (r, sB, v) ∧
        sig.signature = assembleSignature r sB v ∧
        (r.length = 32 → sB.length = 32 → sig.signature.length = 65)) := by
  refine ⟨?_, ?_, ?_⟩
  · intro hkey
    unfold generateClaimSignature
    rw [if_neg (by simp [hkey])]
  · intro hkey hsig
    rw [generateClaimSignature_valid_run libs key spec hkey, hsig]
  · intro sig hok
    by_cases hkey : libs.validKey key = true
    · rw [generateClaimSignature_valid_run libs key spec hkey] at hok
      cases h : libs.ecdsaSign (libs.keccak256 (messageOf libs spec)) key with
      | none => rw [h] at hok; simp at hok
      | some t =>
        obtain ⟨r, sB, v⟩ := t
        rw [h] at hok
        simp only [Except.ok.injEq] at hok
        refine ⟨r, sB, v, rfl, ?_, ?_⟩
        · rw [← hok]
        · intro hr hs
          rw [← hok]
          exact assembleSignature_len r sB v hr hs
    · have hkey2 : libs.validKey key = false := by
        cases hv : libs.validKey key
        · rfl
        · exact absurd hv hkey
      unfold generateClaimSignature at hok
      rw [if_neg (by simp [hkey2])] at hok
      simp at hok

/-- C8 (witness): the invalid-key and signing-failure branches at concrete
collaborator sets. -/
theorem signing_atomicity_witness :
    generateClaimSignature libsBadKey "k" "42" =
        { outcome := .error .invalidKey,
          log := { hashedInputs := [], signedDigests := [] } } ∧
      (generateClaimSignature libsNoSign "k" "42").outcome = .error .signingError :=
  ⟨(signing_atomicity libsBadKey "k" "42").1 rfl,
   (signing_atomicity libsNoSign "k" "42").2.1 rfl rfl⟩

/-- C9: the pipeline is deterministic — two invocations on identical inputs
are the same value, the canonical account bytes and hence the hashed message
depend only on the specifier (not on the private key), and two successful
outcomes of the same invocation carry the same signature bytes and the same
Ethereum address. -/
theorem signing_deterministic (libs : Libs) (key altKey spec : String) :
    generateClaimSignature libs key spec = generateClaimSignature libs key spec ∧
      (libs.validKey key = true → libs.validKey altKey = true →
        (generateClaimSignature libs key spec).log.hashedInputs
          = (generateClaimSignature libs altKey spec).log.hashedInputs) ∧
      (∀ sig sig2, (generateClaimSignature libs key spec).outcome = .ok sig →
        (generateClaimSignature libs key spec).outcome = .ok sig2 →
        sig.signature = sig2.signature ∧ sig.ethereumAddress = sig2.ethereumAddress) := by
  refine ⟨rfl, ?_, ?_⟩
  · intro h1 h2
    rw [generateClaimSignature_valid_run libs key spec h1,
      generateClaimSignature_valid_run libs altKey spec h2]
    cases ha : libs.ecdsaSign (libs.keccak256 (messageOf libs spec)) key with
    | none =>
      cases hb : libs.ecdsaSign (libs.keccak256 (messageOf libs spec)) altKey with
      | none => rfl
      | some t => obtain ⟨r, sB, v⟩ := t; rfl
    | some t =>
      obtain ⟨r, sB, v⟩ := t
      cases hb : libs.ecdsaSign (libs.keccak256 (messageOf libs spec)) altKey with
      | none => rfl
      | some t2 => obtain ⟨r2, sB2, v2⟩ := t2; rfl
  · intro sig sig2 h1 h2
    have : sig = sig2 := Except.ok.inj (h1.symm.trans h2)
    exact ⟨by rw [this], by rw [this]⟩

/-- C9 (witness): key-independence of the hashed message at concrete inputs. -/
theorem signing_deterministic_witness :
    (generateClaimSignature libsDemo "k" "42").log.hashedInputs
      = (generateClaimSignature libsDemo "k2" "42").log.hashedInputs :=
  (signing_deterministic libsDemo "k" "k2" "42").2.1 rfl rfl

/-- C10: the empty-string specifier passes the `!isNaN` test (ToNumber of the
empty string is 0, not NaN), so it takes the numeric branch regardless of the
address decoder, and `parseInt("")` is NaN, whose ToInt32 truncation is 0, so
it is encoded as the 8 zero bytes — the same bytes as the numeric specifier
0 — with no raw-text fallback and no error. -/
theorem empty_specifier_numeric_zero (decodeAddr : String → Option (List Nat)) :
    specifierTierOf decodeAddr "" = SpecifierTier.numeric ∧
      destAccountOf decodeAddr "" = List.replicate 8 0 ∧
      destAccountOf decodeAddr "" = encodeU64 0 :=
  ⟨rfl, rfl, rfl⟩

/-- C7 (amended): every submission input that the code's decoding turns into
a byte count other than 65 — in particular 64- and 66-byte arrays — throws
before anything is submitted; a byte-array input is never truncated or
padded; and an accepted hex string yields exactly the `Buffer.from(.., 'hex')`
decoding of its `0x`-stripped text.  (The whole-byte-hex guarantee of the
original claim is dropped: see the counterexample.) -/
theorem submitSignature_length_validation (v : JsSigValue) :
    (∀ b, submitSignatureValidate v = .ok b → b.length = 65) ∧
      (∀ b0, v = .bytes b0 → b0.length ≠ 65 →
        submitSignatureValidate v = .error (.badLength b0.length)) ∧
      (∀ b0 b, v = .bytes b0 → submitSignatureValidate v = .ok b → b = b0) ∧
      (∀ s b, v = .str s → submitSignatureValidate v = .ok b →
        b = bufferFromHex (cleanHexChars s.toList)) := by
  refine ⟨?_, ?_, ?_, ?_⟩
  · intro b hok
    cases v with
    | other => simp [submitSignatureValidate] at hok
    | str s =>
      simp only [submitSignatureValidate] at hok
      split at hok
      · simp at hok
      · rename_i hlen
        rw [← Except.ok.inj hok]
        omega
    | bytes b2 =>
      simp only [submitSignatureValidate] at hok
      split at hok
      · simp at hok
      · rename_i hlen
        rw [← Except.ok.inj hok]
        omega
  · intro b0 hv hne
    subst hv
    simp [submitSignatureValidate, hne]
  · intro b0 b hv hok
    subst hv
    simp only [submitSignatureValidate] at hok
    split at hok
    · simp at hok
    · exact (Except.ok.inj hok).symm
  · intro s b hv hok
    subst hv
    simp only [submitSignatureValidate] at hok
    split at hok
    · simp at hok
    · exact (Except.ok.inj hok).symm

/-- C7 (witness): 64- and 66-byte array inputs throw the length error. -/
theorem submitSignature_length_validation_witness :
    submitSignatureValidate (.bytes (List.replicate 64 0)) = .error (.badLength 64) ∧
      submitSignatureValidate (.bytes (List.replicate 66 0)) = .error (.badLength 66) :=
  ⟨(submitSignature_length_validation (.bytes (List.replicate 64 0))).2.1
      (List.replicate 64 0) rfl (by decide),
   (submitSignature_length_validation (.bytes (List.replicate 66 0))).2.1
      (List.replicate 66 0) rfl (by decide)⟩

set_option maxRecDepth 8000 in
/-- C7 (counterexample): a hex-string input with an odd number of hex digits
(131 digits after `0x`) does not decode to whole bytes, yet `submitSignature`
does not throw: `Buffer.from(.., 'hex')` silently drops the dangling nibble,
the 65-byte check passes, and the truncated signature is submitted. -/
theorem submitSignature_truncates_dangling_nibble :
    (cleanHexChars (String.mk ('0' :: 'x' :: List.replicate 131 'a')).toList).length % 2 = 1 ∧
      submitSignatureValidate (.str (String.mk ('0' :: 'x' :: List.replicate 131 'a')))
        = .ok (List.replicate 65 170) := by
  exact ⟨rfl, rfl⟩

